import Mathlib

/-!
Verification of the transport coordination core of `matter-rs`:
the receive-side deduplication window (`src/matter/src/transport/dedup.rs`)
and the exchange manager (`src/matter/src/transport/exchange.rs`).

Machine integers are embedded as `Nat`/`Int` with explicit reduction
modulo `2^32` (for `u32`) and `2^16` (for `u16`).  Rust's arithmetic
overflow is modelled with two's-complement wrapping (release semantics);
where the possibility of overflow itself is under scrutiny the exact
pre-wrap value is modelled separately (`exactDiffI32`).
-/

namespace Matter

/-- Reinterpretation of a `u32` bit pattern as an `i32` value
(the Rust cast `x as i32`). -/
def i32ofU32 (x : Nat) : Int :=
  if x < 2147483648 then (x : Int) else (x : Int) - 4294967296

/-- Two's-complement wrapping of an integer into the `i32` range,
the release-mode result of an overflowing `i32` operation. -/
def wrapI32 (z : Int) : Int :=
  (z + 2147483648) % 4294967296 - 2147483648

/-- The exact mathematical value of the subtraction
`(msg_ctr as i32) - (max_ctr as i32)` at the top of `RxCtrState::recv`
(dedup.rs line 28), before any overflow handling. -/
def exactDiffI32 (msg_ctr max_ctr : Nat) : Int :=
  i32ofU32 msg_ctr - i32ofU32 max_ctr

/-- `RxCtrState` from dedup.rs: `max_ctr: u32`, `ctr_bitmap: u16`. -/
structure RxCtrState where
  max_ctr : Nat
  ctr_bitmap : Nat
deriving DecidableEq, Repr

/-- `RxCtrState::new`: initial bitmap is all ones (`0xffff`). -/
def RxCtrState.new (max_ctr : Nat) : RxCtrState :=
  ⟨max_ctr, 65535⟩

/-- `RxCtrState::contains`: `(self.ctr_bitmap & (1 << bit_number)) != 0`. -/
def RxCtrState.contains (s : RxCtrState) (bit_number : Nat) : Bool :=
  s.ctr_bitmap &&& (1 <<< bit_number) ≠ 0

/-- `RxCtrState::insert`: `self.ctr_bitmap |= 1 << bit_number`. -/
def RxCtrState.insert (s : RxCtrState) (bit_number : Nat) : RxCtrState :=
  { s with ctr_bitmap := s.ctr_bitmap ||| (1 <<< bit_number) }

/-- `RxCtrState::recv` (dedup.rs lines 27-66).  `idiff` is the signed
32-bit difference (wrapping on overflow), `udiff` its absolute value
(`i32::unsigned_abs`).  The five branches follow the source in order;
the left shift of the `u16` bitmap is reduced modulo `2^16`. -/
def RxCtrState.recv (s : RxCtrState) (msg_ctr : Nat) (is_encrypted : Bool) :
    Bool × RxCtrState :=
  let idiff : Int := wrapI32 (i32ofU32 msg_ctr - i32ofU32 s.max_ctr)
  let udiff : Nat := idiff.natAbs
  if msg_ctr = s.max_ctr then
    (true, s)
  else if -16 ≤ idiff ∧ idiff < 0 then
    let index := udiff - 1
    if s.contains index then (true, s)
    else (false, s.insert index)
  else if s.max_ctr < msg_ctr then
    let s1 : RxCtrState := { s with max_ctr := msg_ctr }
    if udiff < 16 then
      let s2 : RxCtrState := { s1 with ctr_bitmap := (s1.ctr_bitmap <<< udiff) % 65536 }
      (false, s2.insert (udiff - 1))
    else
      (false, { s1 with ctr_bitmap := 65535 })
  else if !is_encrypted then
    (false, { s with max_ctr := msg_ctr, ctr_bitmap := 65535 })
  else
    (true, s)

/-- Backward distance `(max_ctr - msg_ctr) mod 2^32`, used to restate the
branch conditions of `recv` over `Nat`. -/
def dback (M msg : Nat) : Nat :=
  (M + 4294967296 - msg) % 4294967296

/-- `recv` restated with the branch conditions and shift amounts expressed
over `Nat` (proved equal to `RxCtrState.recv` in `recv_eq_recvN`). -/
def recvN (s : RxCtrState) (msg : Nat) (enc : Bool) : Bool × RxCtrState :=
  let d := dback s.max_ctr msg
  if msg = s.max_ctr then
    (true, s)
  else if 1 ≤ d ∧ d ≤ 16 then
    if s.contains (d - 1) then (true, s)
    else (false, s.insert (d - 1))
  else if s.max_ctr < msg then
    if msg - s.max_ctr < 16 then
      (false,
        RxCtrState.insert ⟨msg, (s.ctr_bitmap <<< (msg - s.max_ctr)) % 65536⟩
          (msg - s.max_ctr - 1))
    else
      (false, ⟨msg, 65535⟩)
  else if !enc then
    (false, ⟨msg, 65535⟩)
  else
    (true, s)

/-- Well-formedness of a window state: the fields fit in `u32` / `u16`.
Holds for every state the Rust struct can represent. -/
def WF (s : RxCtrState) : Prop :=
  s.max_ctr < 4294967296 ∧ s.ctr_bitmap < 65536

/-- Reachability invariant: while `max_ctr` is still below 16, every bitmap
position at depth `max_ctr` or more (these stand for the pre-zero counters
`2^32 - 1, 2^32 - 2, ...`) is marked seen.  `new` establishes it (bitmap all
ones) and every encrypted `recv` preserves it. -/
def Inv (s : RxCtrState) : Prop :=
  s.max_ctr < 16 → ∀ p, s.max_ctr ≤ p → p ≤ 15 → s.ctr_bitmap.testBit p

/-- Counter `v` is permanently recorded by state `s`: it does not exceed
`max_ctr`, and while it is inside the 16-deep history window its bit is set.
A `Dead` counter is reported duplicate by every encrypted `recv`, and
deadness is preserved by encrypted `recv` steps. -/
def Dead (v : Nat) (s : RxCtrState) : Prop :=
  v ≤ s.max_ctr ∧
    (s.max_ctr - v ≤ 16 → (s.max_ctr = v ∨ s.ctr_bitmap.testBit (s.max_ctr - v - 1)))

/-- Run a sequence of encrypted `recv` calls, keeping the final state. -/
def runEnc (s : RxCtrState) (l : List Nat) : RxCtrState :=
  l.foldl (fun t c => (RxCtrState.recv t c true).snd) s

/-- C1's five ordered cases exactly as the claim words them, with
`Δ = (msg_ctr as i32) - (max_ctr as i32)` (32-bit wrapping, as computed by
the source): (1) equal counter → duplicate; (2) `-16 ≤ Δ < 0` → bitmap
check; (3) `msg_ctr > max_ctr` → shift by `Δ` and set bit `Δ - 1` when
`Δ < 16`, else reset (negative `Δ` is totalised through `Int.toNat`, which
case 5 of the counterexample never reaches); (4) `Δ < -16` AND unencrypted
→ reboot; (5) otherwise → duplicate, state unchanged. -/
def claimRecvC1 (s : RxCtrState) (msg_ctr : Nat) (is_encrypted : Bool) :
    Bool × RxCtrState :=
  let dlt : Int := wrapI32 (i32ofU32 msg_ctr - i32ofU32 s.max_ctr)
  if msg_ctr = s.max_ctr then
    (true, s)
  else if -16 ≤ dlt ∧ dlt < 0 then
    let index := dlt.natAbs - 1
    if s.contains index then (true, s)
    else (false, s.insert index)
  else if s.max_ctr < msg_ctr then
    let s1 : RxCtrState := { s with max_ctr := msg_ctr }
    if dlt < 16 then
      let s2 : RxCtrState := { s1 with ctr_bitmap := (s1.ctr_bitmap <<< dlt.toNat) % 65536 }
      (false, s2.insert (dlt - 1).toNat)
    else
      (false, { s1 with ctr_bitmap := 65535 })
  else if dlt < -16 ∧ is_encrypted = false then
    (false, { s with max_ctr := msg_ctr, ctr_bitmap := 65535 })
  else
    (true, s)

/-- C1 amended: case (3) shifts by `|Δ|` (the source's `unsigned_abs`),
and case (4) is guarded only by "unencrypted" once cases (1)-(3) have
failed; cases (1), (2), (5) as in the claim. -/
def claimRecvC1A (s : RxCtrState) (msg_ctr : Nat) (is_encrypted : Bool) :
    Bool × RxCtrState :=
  let dlt : Int := wrapI32 (i32ofU32 msg_ctr - i32ofU32 s.max_ctr)
  if msg_ctr = s.max_ctr then
    (true, s)
  else if -16 ≤ dlt ∧ dlt < 0 then
    let index := dlt.natAbs - 1
    if s.contains index then (true, s)
    else (false, s.insert index)
  else if s.max_ctr < msg_ctr then
    let s1 : RxCtrState := { s with max_ctr := msg_ctr }
    if dlt.natAbs < 16 then
      let s2 : RxCtrState := { s1 with ctr_bitmap := (s1.ctr_bitmap <<< dlt.natAbs) % 65536 }
      (false, s2.insert (dlt.natAbs - 1))
    else
      (false, { s1 with ctr_bitmap := 65535 })
  else if is_encrypted = false then
    (false, { s with max_ctr := msg_ctr, ctr_bitmap := 65535 })
  else
    (true, s)

/-- `Role` from exchange.rs. -/
inductive Role
  | Initiator
  | Responder
deriving DecidableEq, Repr

/-- Exchange lifecycle `State` from exchange.rs. -/
inductive State
  | Open
  | Close
  | Terminate
deriving DecidableEq, Repr

/-- The error variants of `crate::error::Error` used by this subsystem
(spec §6 error taxonomy), plus a generic variant for errors produced by
the external collaborators. -/
inductive Error
  | NoSpace
  | NoExchange
  | Invalid
  | MdnsError
  | OtherErr
deriving DecidableEq, Repr

/-- Modelled from the spec (§6): `ReliableMessage` is external to src/; its
observable interface here is `is_empty()` (no pending acks/retransmits) and
`is_ack_ready()`, modelled as two flags. -/
structure ReliableMessage where
  empty : Bool
  ack_ready : Bool
deriving DecidableEq, Repr

/-- Modelled from the spec (§4.D): a fresh exchange has an empty
reliability state, and no ack pending. -/
def ReliableMessage.new : ReliableMessage := ⟨true, false⟩

def ReliableMessage.is_empty (m : ReliableMessage) : Bool := m.empty

def ReliableMessage.is_ack_ready (m : ReliableMessage) : Bool := m.ack_ready

/-- `DataOption` from exchange.rs.  The `Boxed(Box<dyn Any>)` variant is
represented as a (runtime type id, value) pair, following §9's note that a
type-erased pointer with a runtime type id is an equivalent implementation;
`SystemTime` is opaque and represented as a `Nat`. -/
inductive DataOption
  | Boxed (ty_id : Nat) (val : Nat)
  | Time (t : Nat)
  | None
deriving DecidableEq, Repr

/-- `Exchange` from exchange.rs. -/
structure Exchange where
  id : Nat
  sess_idx : Nat
  role : Role
  state : State
  mrp : ReliableMessage
  data : DataOption
deriving DecidableEq, Repr

/-- `Exchange::new`: state Open, fresh reliability state, empty payload. -/
def Exchange.new (id sess_idx : Nat) (role : Role) : Exchange :=
  ⟨id, sess_idx, role, State.Open, ReliableMessage.new, DataOption.None⟩

/-- `Exchange::terminate`. -/
def Exchange.terminate (e : Exchange) : Exchange :=
  { e with data := DataOption.None, state := State.Terminate }

/-- `Exchange::close`. -/
def Exchange.close (e : Exchange) : Exchange :=
  { e with data := DataOption.None, state := State.Close }

/-- `Exchange::is_state_open`. -/
def Exchange.is_state_open (e : Exchange) : Bool :=
  decide (e.state = State.Open)

/-- `Exchange::is_purgeable`: Terminate, or Close with empty reliability
state. -/
def Exchange.is_purgeable (e : Exchange) : Bool :=
  decide (e.state = State.Terminate) ||
    (decide (e.state = State.Close) && e.mrp.is_empty)

/-- `Exchange::take_data_boxed::<T>`: `mem::replace` the slot with None;
if the old value was `Boxed`, `downcast::<T>().ok()` keeps it exactly when
the type matches and otherwise *drops* it (the slot stays None); any other
old value is put back. -/
def Exchange.take_data_boxed (e : Exchange) (ty_id : Nat) : Option Nat × Exchange :=
  let old := e.data
  let e1 : Exchange := { e with data := DataOption.None }
  match old with
  | DataOption.Boxed t v => (if t = ty_id then some v else none, e1)
  | _ => (none, { e1 with data := old })

/-- The proto-header fields of `Packet` that this subsystem reads or writes
(spec §6): exchange id, initiator flag; the rest is opaque. -/
structure Packet where
  exch_id : Nat
  initiator : Bool
  body : Nat
deriving DecidableEq, Repr

/-- `get_complementary_role` from exchange.rs. -/
def get_complementary_role (is_initiator : Bool) : Role :=
  if is_initiator then Role.Responder else Role.Initiator

/-- The observable side-effecting calls made by `Exchange::send`, recorded
in order as a trace. -/
inductive SendEvent
  | stamped
  | sessionPreSend
  | mrpPreSend
  | sessionSend
deriving DecidableEq, Repr

/-- Modelled from the spec (§6): the session handle operations used by
`Exchange::send`, as oracle functions (`pre_send` encrypts and assigns the
counter, `send` transmits). -/
structure SessionIface where
  pre_send : Packet → Except Error Packet
  send : Packet → Except Error Unit

/-- Modelled from the spec (§6): `ReliableMessage::pre_send` attaches the
reliability fields, mutating the reliability state; the (possibly mutated)
state is returned alongside the outcome. -/
structure MrpIface where
  pre_send : ReliableMessage → Packet → ReliableMessage × Except Error Packet

/-- Result of `Exchange::send`: outcome, exchange after the call, the
packet as last observed, and the trace of side-effecting steps taken. -/
structure SendOut where
  res : Except Error Unit
  exch : Exchange
  pkt : Packet
  trace : List SendEvent

/-- `Exchange::send` (exchange.rs lines 178-204): Terminate swallows the
send; otherwise stamp the header (exchange id, initiator bit), then
`session.pre_send`, `mrp.pre_send`, `session.send`, failing fast. -/
def Exchange.send (e : Exchange) (proto_tx : Packet) (session : SessionIface)
    (mrp_if : MrpIface) : SendOut :=
  if e.state = State.Terminate then
    ⟨Except.ok (), e, proto_tx, []⟩
  else
    let tx1 : Packet := { proto_tx with
      exch_id := e.id,
      initiator := if e.role = Role.Initiator then true else proto_tx.initiator }
    match session.pre_send tx1 with
    | Except.error err =>
      ⟨Except.error err, e, tx1, [SendEvent.stamped, SendEvent.sessionPreSend]⟩
    | Except.ok tx2 =>
      match mrp_if.pre_send e.mrp tx2 with
      | (mrp1, Except.error err) =>
        ⟨Except.error err, { e with mrp := mrp1 }, tx2,
          [SendEvent.stamped, SendEvent.sessionPreSend, SendEvent.mrpPreSend]⟩
      | (mrp1, Except.ok tx3) =>
        match session.send tx3 with
        | Except.error err =>
          ⟨Except.error err, { e with mrp := mrp1 }, tx3,
            [SendEvent.stamped, SendEvent.sessionPreSend, SendEvent.mrpPreSend,
              SendEvent.sessionSend]⟩
        | Except.ok _ =>
          ⟨Except.ok (), { e with mrp := mrp1 }, tx3,
            [SendEvent.stamped, SendEvent.sessionPreSend, SendEvent.mrpPreSend,
              SendEvent.sessionSend]⟩

/-- `MAX_EXCHANGES` from exchange.rs. -/
def MAX_EXCHANGES : Nat := 8

/-- `MAX_MRP_ENTRIES` from exchange.rs. -/
def MAX_MRP_ENTRIES : Nat := 4

/-- Lookup in a `heapless::LinearMap` modelled as an association list in
insertion order: value of the first entry with the given key. -/
def lmGet (l : List (Nat × α)) (k : Nat) : Option α :=
  (l.find? (fun kv => kv.1 == k)).map (fun kv => kv.2)

/-- `heapless::LinearMap::insert` with capacity `cap`: replace in place if
the key exists, append if there is room, otherwise fail. -/
def lmInsert (cap : Nat) (l : List (Nat × α)) (k : Nat) (v : α) :
    Except Unit (List (Nat × α)) :=
  if (l.find? (fun kv => kv.1 == k)).isSome then
    Except.ok (l.map (fun kv => if kv.1 == k then (kv.1, v) else kv))
  else if l.length < cap then
    Except.ok (l ++ [(k, v)])
  else
    Except.error ()

/-- `heapless::LinearMap::remove`: drop the entry with the given key. -/
def lmRemove (l : List (Nat × α)) (k : Nat) : List (Nat × α) :=
  l.eraseP (fun kv => kv.1 == k)

/-- The key column of the map holds no duplicates — the `LinearMap`
representation invariant. -/
def keysNodup (l : List (Nat × α)) : Prop :=
  (l.map Prod.fst).Nodup

/-- `ExchangeMgr`: the bounded `id → Exchange` table, plus the Session
Table reduced to its set of occupied indices (the Session Table itself is
external to src/ and modelled from the spec §6). -/
structure ExchangeMgr where
  exchanges : List (Nat × Exchange)
  sessions : List Nat

/-- `ExchangeMgr::_get` (exchange.rs lines 267-300): look up `id`, creating
the exchange first when `create_new` is set; a present entry must agree on
role and session index (`NoExchange` otherwise); an absent entry without
`create_new`, and a failed insert, give `NoSpace`.  Returns the outcome
together with the updated table. -/
def ExchangeMgr._get (exchanges : List (Nat × Exchange)) (sess_idx id : Nat)
    (role : Role) (create_new : Bool) :
    Except Error Exchange × List (Nat × Exchange) :=
  let ins : Except Error (List (Nat × Exchange)) :=
    if (exchanges.find? (fun kv => kv.1 == id)).isSome then
      Except.ok exchanges
    else if create_new then
      match lmInsert MAX_EXCHANGES exchanges id (Exchange.new id sess_idx role) with
      | Except.ok l1 => Except.ok l1
      | Except.error _ => Except.error Error.NoSpace
    else
      Except.error Error.NoSpace
  match ins with
  | Except.error err => (Except.error err, exchanges)
  | Except.ok l1 =>
    match l1.find? (fun kv => kv.1 == id) with
    | some kv =>
      if kv.2.role = role ∧ sess_idx = kv.2.sess_idx then (Except.ok kv.2, l1)
      else (Except.error Error.NoExchange, l1)
    | none => (Except.error Error.NoSpace, l1)

/-- The receive-path exchange lookup performed by `ExchangeMgr::recv`
(exchange.rs line 322): the local role is the complement of the header's
initiator flag, and creation is allowed only when the peer is the
initiator. -/
def ExchangeMgr.recvLookup (exchanges : List (Nat × Exchange)) (sess_idx : Nat)
    (proto_rx : Packet) : Except Error Exchange × List (Nat × Exchange) :=
  ExchangeMgr._get exchanges sess_idx proto_rx.exch_id
    (get_complementary_role proto_rx.initiator) proto_rx.initiator

/-- `ExchangeMgr::purge` (exchange.rs lines 356-367): two-phase — collect
purgeable ids into a bounded scratch map (a failed insert is silently
dropped, `let _ = ...`), then remove them. -/
def ExchangeMgr.purge (m : ExchangeMgr) : ExchangeMgr :=
  let to_purge : List (Nat × Unit) :=
    m.exchanges.foldl
      (fun acc kv =>
        if kv.2.is_purgeable then
          match lmInsert MAX_EXCHANGES acc kv.1 () with
          | Except.ok acc1 => acc1
          | Except.error _ => acc
        else acc)
      []
  { m with exchanges := to_purge.foldl (fun l kv => lmRemove l kv.1) m.exchanges }

/-- `ExchangeMgr::pending_acks` (exchange.rs lines 369-375): insert the id
of every ack-ready exchange into the caller's `LinearMap` of capacity
`MAX_MRP_ENTRIES`, `.unwrap()`ing each insert; `none` models the panic on
overflow. -/
def ExchangeMgr.pending_acks (m : ExchangeMgr)
    (expired_entries : List (Nat × Unit)) : Option (List (Nat × Unit)) :=
  m.exchanges.foldl
    (fun acc kv =>
      match acc with
      | none => none
      | some out =>
        if kv.2.mrp.is_ack_ready then
          match lmInsert MAX_MRP_ENTRIES out kv.1 () with
          | Except.ok out1 => some out1
          | Except.error _ => none
        else some out)
    (some expired_entries)

/-- The external effects used by `ExchangeMgr::evict_session`: packet
allocation (`Packet::new_tx` / slab), `create_sc_status_report`, and the
session handle at the evicted index (all external to src/, modelled from
the spec §6 as oracles). -/
structure EvictIface where
  new_tx : Except Error Packet
  sc_status_report : Packet → Except Error Packet
  session : SessionIface
  mrp_if : MrpIface

/-- Step 2 of `ExchangeMgr::evict_session`: find the first exchange bound
to `index` and send the CloseSession report on it (`iter_mut().find`), the
table keeping the exchange as mutated by the send. -/
def evictNotify (m : ExchangeMgr) (index : Nat) (tx : Packet) (o : EvictIface) :
    Except Error Unit × List (Nat × Exchange) :=
  match m.exchanges.find? (fun kv => kv.2.sess_idx == index) with
  | some kv =>
    let out := Exchange.send kv.2 tx o.session o.mrp_if
    (out.res,
      m.exchanges.map (fun kv2 => if kv2.1 == kv.1 then (kv2.1, out.exch) else kv2))
  | none => (Except.ok (), m.exchanges)

/-- Step 3 of `ExchangeMgr::evict_session`: collect the ids of every
exchange bound to `index` (`remove_exchanges`), then remove them. -/
def evictRemove (l1 : List (Nat × Exchange)) (index : Nat) : List (Nat × Exchange) :=
  ((l1.filter (fun kv => kv.2.sess_idx == index)).map Prod.fst).foldl lmRemove l1

/-- `ExchangeMgr::evict_session` (exchange.rs lines 377-419): build a
CloseSession status report, send it on the first exchange bound to the
index (failures propagate, leaving the table as mutated so far), then
remove every exchange bound to the index and drop the session. -/
def ExchangeMgr.evict_session (m : ExchangeMgr) (index : Nat) (o : EvictIface) :
    Except Error Unit × ExchangeMgr :=
  match o.new_tx with
  | Except.error err => (Except.error err, m)
  | Except.ok tx0 =>
    match o.sc_status_report tx0 with
    | Except.error err => (Except.error err, m)
    | Except.ok tx =>
      match evictNotify m index tx o with
      | (Except.error err, l1) => (Except.error err, { m with exchanges := l1 })
      | (Except.ok _, l1) =>
        (Except.ok (),
          { exchanges := evictRemove l1 index,
            sessions := m.sessions.filter (fun j => j != index) })

end Matter

namespace Matter

theorem wrapdiff_mod (M msg : Nat) (hM : M < 4294967296) (hm : msg < 4294967296) :
    (4294967296 : Int) ∣ (wrapI32 (i32ofU32 msg - i32ofU32 M) - ((msg : Int) - (M : Int))) ∧
    -2147483648 ≤ wrapI32 (i32ofU32 msg - i32ofU32 M) ∧
    wrapI32 (i32ofU32 msg - i32ofU32 M) < 2147483648 := by
  unfold wrapI32 i32ofU32
  split_ifs <;> refine ⟨?_, ?_, ?_⟩ <;> omega

theorem recv_eq_recvN (s : RxCtrState) (msg : Nat) (enc : Bool)
    (hM : s.max_ctr < 4294967296) (hm : msg < 4294967296) :
    RxCtrState.recv s msg enc = recvN s msg enc := by
  obtain ⟨M, B⟩ := s
  have key := wrapdiff_mod M msg hM hm
  simp only [RxCtrState.recv, recvN, dback] at key ⊢
  set z := wrapI32 (i32ofU32 msg - i32ofU32 M) with hzdef
  set d := (M + 4294967296 - msg) % 4294967296 with hddef
  by_cases h1 : msg = M
  · simp [h1]
  · rw [if_neg h1, if_neg h1]
    by_cases h2 : (-16 ≤ z ∧ z < 0)
    · have hd2 : (1:Nat) ≤ d ∧ d ≤ 16 := by omega
      have habs : z.natAbs = d := by omega
      rw [if_pos h2, if_pos hd2, habs]
    · have hd2 : ¬((1:Nat) ≤ d ∧ d ≤ 16) := by omega
      rw [if_neg h2, if_neg hd2]
      by_cases h3 : M < msg
      · rw [if_pos h3, if_pos h3]
        by_cases h4 : z.natAbs < 16
        · have h5 : msg - M < 16 := by omega
          have habs : z.natAbs = msg - M := by omega
          rw [if_pos h4, if_pos h5, habs]
        · have h5 : ¬(msg - M < 16) := by omega
          rw [if_neg h4, if_neg h5]
      · rw [if_neg h3, if_neg h3]

theorem contains_eq_testBit (s : RxCtrState) (i : Nat) :
    s.contains i = s.ctr_bitmap.testBit i := by
  unfold RxCtrState.contains
  rw [Nat.shiftLeft_eq, one_mul, Nat.and_two_pow]
  cases h : s.ctr_bitmap.testBit i <;> simp [h]

theorem testBit_insert (s : RxCtrState) (i p : Nat) :
    (s.insert i).ctr_bitmap.testBit p =
      (s.ctr_bitmap.testBit p || decide (i = p)) := by
  unfold RxCtrState.insert
  rw [Nat.testBit_or, Nat.shiftLeft_eq, one_mul, Nat.testBit_two_pow]

theorem testBit_shift_mod (B u p : Nat) :
    ((B <<< u) % 65536).testBit p =
      (decide (p < 16) && (decide (u ≤ p) && B.testBit (p - u))) := by
  have h16 : (65536 : Nat) = 2 ^ 16 := by norm_num
  rw [h16, Nat.testBit_mod_two_pow, Nat.testBit_shiftLeft]

theorem testBit_ones (p : Nat) : (65535 : Nat).testBit p = decide (p < 16) := by
  have h : (65535 : Nat) = 2 ^ 16 - 1 := by norm_num
  rw [h, Nat.testBit_two_pow_sub_one]

theorem insert_max (s : RxCtrState) (i : Nat) : (s.insert i).max_ctr = s.max_ctr := rfl

theorem or_one_shift_lt (B i : Nat) (hB : B < 65536) (hi : i ≤ 15) :
    B ||| (1 <<< i) < 65536 := by
  have h1 : B < 2 ^ 16 := by norm_num; omega
  have h2 : 1 <<< i < 2 ^ 16 := by
    rw [Nat.shiftLeft_eq, one_mul]
    calc 2 ^ i ≤ 2 ^ 15 := Nat.pow_le_pow_right (by norm_num) hi
    _ < 2 ^ 16 := by norm_num
  have h3 := Nat.or_lt_two_pow h1 h2
  norm_num at h3
  exact h3

theorem wf_recvN (s : RxCtrState) (msg : Nat) (enc : Bool)
    (hWF : WF s) (hm : msg < 4294967296) : WF (recvN s msg enc).snd := by
  obtain ⟨hM, hB⟩ := hWF
  unfold recvN
  by_cases h1 : msg = s.max_ctr
  · simp only [if_pos h1]; exact ⟨hM, hB⟩
  rw [if_neg h1]
  by_cases h2 : 1 ≤ dback s.max_ctr msg ∧ dback s.max_ctr msg ≤ 16
  · rw [if_pos h2]
    by_cases hc : s.contains (dback s.max_ctr msg - 1)
    · rw [if_pos hc]; exact ⟨hM, hB⟩
    · rw [if_neg hc]
      refine ⟨hM, ?_⟩
      exact or_one_shift_lt _ _ hB (by omega)
  rw [if_neg h2]
  by_cases h3 : s.max_ctr < msg
  · rw [if_pos h3]
    by_cases h4 : msg - s.max_ctr < 16
    · rw [if_pos h4]
      refine ⟨hm, ?_⟩
      exact or_one_shift_lt _ _ (Nat.mod_lt _ (by norm_num)) (by omega)
    · rw [if_neg h4]
      exact ⟨hm, by norm_num⟩
  rw [if_neg h3]
  by_cases h5 : enc
  · simp only [h5, Bool.not_true, if_neg (by simp : ¬ (false = true))]
    exact ⟨hM, hB⟩
  · have h5' : enc = false := by simpa using h5
    simp only [h5', Bool.not_false, if_pos rfl]
    exact ⟨hm, by norm_num⟩

theorem inv_new (m : Nat) : Inv (RxCtrState.new m) := by
  intro _ p _ hp
  show (65535 : Nat).testBit p = true
  rw [testBit_ones]
  simp only [decide_eq_true_eq]
  omega

theorem inv_recvN (s : RxCtrState) (w : Nat)
    (hWF : WF s) (hw : w < 4294967296) (hinv : Inv s) :
    Inv (recvN s w true).snd := by
  obtain ⟨hM, hB⟩ := hWF
  unfold recvN
  by_cases h1 : w = s.max_ctr
  · simp only [if_pos h1]; exact hinv
  rw [if_neg h1]
  by_cases h2 : 1 ≤ dback s.max_ctr w ∧ dback s.max_ctr w ≤ 16
  · rw [if_pos h2]
    by_cases hc : s.contains (dback s.max_ctr w - 1)
    · rw [if_pos hc]; exact hinv
    · rw [if_neg hc]
      intro hmax p hp1 hp2
      rw [insert_max] at hp1
      rw [testBit_insert]
      rw [insert_max] at hmax
      exact Bool.or_inl (hinv hmax p hp1 hp2)
  rw [if_neg h2]
  by_cases h3 : s.max_ctr < w
  · rw [if_pos h3]
    by_cases h4 : w - s.max_ctr < 16
    · rw [if_pos h4]
      simp only [Inv, insert_max]
      intro hmax p hp1 hp2
      rw [testBit_insert]
      apply Bool.or_inl
      rw [testBit_shift_mod]
      have hu1 : w - s.max_ctr ≤ p := by omega
      have hrec : s.ctr_bitmap.testBit (p - (w - s.max_ctr)) = true := by
        apply hinv (by omega) _ (by omega) (by omega)
      have hp16 : p < 16 := by omega
      simp [hrec, hu1, hp16]
    · rw [if_neg h4]
      intro _ p _ hp2
      rw [testBit_ones]
      simpa using by omega
  rw [if_neg h3]
  simp only [Bool.not_true, if_neg (by simp : ¬ (false = true))]
  exact hinv

theorem dead_dup (s : RxCtrState) (v : Nat) (hWF : WF s) (hv : v < 4294967296)
    (hdead : Dead v s) : (recvN s v true).fst = true := by
  obtain ⟨hM, hB⟩ := hWF
  obtain ⟨hle, hwin⟩ := hdead
  unfold recvN
  by_cases h1 : v = s.max_ctr
  · simp [h1]
  have hvlt : v < s.max_ctr := by omega
  rw [if_neg h1]
  by_cases h2 : 1 ≤ dback s.max_ctr v ∧ dback s.max_ctr v ≤ 16
  · rw [if_pos h2]
    have hd : dback s.max_ctr v = s.max_ctr - v := by unfold dback; omega
    have hd16 : s.max_ctr - v ≤ 16 := by
      have := h2.2; omega
    have hcon : s.contains (dback s.max_ctr v - 1) = true := by
      rw [contains_eq_testBit, hd]
      rcases hwin hd16 with h | h
      · omega
      · exact h
    rw [if_pos hcon]
  · rw [if_neg h2]
    rw [if_neg (by omega : ¬ s.max_ctr < v)]
    simp

theorem accept_dead (s : RxCtrState) (v : Nat) (hWF : WF s) (hv : v < 4294967296)
    (hinv : Inv s) (hacc : (recvN s v true).fst = false) :
    Dead v (recvN s v true).snd := by
  obtain ⟨hM, hB⟩ := hWF
  unfold recvN at hacc ⊢
  by_cases h1 : v = s.max_ctr
  · simp [h1] at hacc
  rw [if_neg h1] at hacc ⊢
  by_cases h2 : 1 ≤ dback s.max_ctr v ∧ dback s.max_ctr v ≤ 16
  · rw [if_pos h2] at hacc ⊢
    by_cases hc : s.contains (dback s.max_ctr v - 1)
    · rw [if_pos hc] at hacc
      simp at hacc
    · rw [if_neg hc]
      have hvlt : v < s.max_ctr := by
        rcases Nat.lt_or_ge v s.max_ctr with h | h
        · exact h
        · exfalso
          have hvgt : s.max_ctr < v := by omega
          have hd : dback s.max_ctr v = s.max_ctr + 4294967296 - v := by
            unfold dback; omega
          have hmax : s.max_ctr < 16 := by
            have := h2.2; omega
          have hbit := hinv hmax (dback s.max_ctr v - 1) (by omega) (by omega)
          rw [contains_eq_testBit] at hc
          exact hc hbit
      have hd : dback s.max_ctr v = s.max_ctr - v := by unfold dback; omega
      simp only [Dead, insert_max]
      refine ⟨by omega, ?_⟩
      intro _
      right
      rw [testBit_insert]
      apply Bool.or_inr
      simp only [decide_eq_true_eq]
      omega
  rw [if_neg h2] at hacc ⊢
  by_cases h3 : s.max_ctr < v
  · rw [if_pos h3] at hacc ⊢
    by_cases h4 : v - s.max_ctr < 16
    · rw [if_pos h4]
      simp only [Dead, insert_max]
      exact ⟨le_refl v, fun _ => Or.inl trivial⟩
    · rw [if_neg h4]
      exact ⟨le_refl v, fun _ => Or.inl rfl⟩
  rw [if_neg h3] at hacc
  simp at hacc

theorem dead_step (s : RxCtrState) (v w : Nat) (hWF : WF s)
    (hv : v < 4294967296) (hw : w < 4294967296)
    (hdead : Dead v s) : Dead v (recvN s w true).snd := by
  obtain ⟨hM, hB⟩ := hWF
  obtain ⟨hle, hwin⟩ := hdead
  unfold recvN
  by_cases h1 : w = s.max_ctr
  · simp only [if_pos h1]; exact ⟨hle, hwin⟩
  rw [if_neg h1]
  by_cases h2 : 1 ≤ dback s.max_ctr w ∧ dback s.max_ctr w ≤ 16
  · rw [if_pos h2]
    by_cases hc : s.contains (dback s.max_ctr w - 1)
    · rw [if_pos hc]; exact ⟨hle, hwin⟩
    · rw [if_neg hc]
      simp only [Dead, insert_max]
      refine ⟨hle, ?_⟩
      intro hwle
      rcases hwin hwle with h | h
      · exact Or.inl h
      · right
        rw [testBit_insert]
        exact Bool.or_inl h
  rw [if_neg h2]
  by_cases h3 : s.max_ctr < w
  · rw [if_pos h3]
    by_cases h4 : w - s.max_ctr < 16
    · rw [if_pos h4]
      simp only [Dead, insert_max]
      refine ⟨by omega, ?_⟩
      intro hwle
      right
      rw [testBit_insert]
      by_cases hvm : v = s.max_ctr
      · apply Bool.or_inr
        simp only [decide_eq_true_eq]
        omega
      · apply Bool.or_inl
        rw [testBit_shift_mod]
        have hb := hwin (by omega)
        rcases hb with h | h
        · omega
        · have e1 : w - v - 1 < 16 := by omega
          have e2 : w - s.max_ctr ≤ w - v - 1 := by omega
          have e3 : w - v - 1 - (w - s.max_ctr) = s.max_ctr - v - 1 := by omega
          simp [e1, e2, e3, h]
    · rw [if_neg h4]
      simp only [Dead]
      refine ⟨by omega, ?_⟩
      intro hwle
      right
      rw [testBit_ones]
      simp only [decide_eq_true_eq]
      omega
  rw [if_neg h3]
  simp only [Bool.not_true, if_neg (by simp : ¬ (false = true))]
  exact ⟨hle, hwin⟩

theorem run_wf (l : List Nat) (s : RxCtrState) (hWF : WF s)
    (hl : ∀ x ∈ l, x < 4294967296) : WF (runEnc s l) := by
  induction l generalizing s with
  | nil => exact hWF
  | cons c t ih =>
    have hc : c < 4294967296 := hl c (List.mem_cons_self _ _)
    have heq : RxCtrState.recv s c true = recvN s c true :=
      recv_eq_recvN s c true hWF.1 hc
    show WF (runEnc (RxCtrState.recv s c true).snd t)
    rw [heq]
    exact ih _ (wf_recvN s c true hWF hc) fun x hx => hl x (List.mem_cons_of_mem _ hx)

theorem run_inv (l : List Nat) (s : RxCtrState) (hWF : WF s) (hinv : Inv s)
    (hl : ∀ x ∈ l, x < 4294967296) : Inv (runEnc s l) := by
  induction l generalizing s with
  | nil => exact hinv
  | cons c t ih =>
    have hc : c < 4294967296 := hl c (List.mem_cons_self _ _)
    have heq : RxCtrState.recv s c true = recvN s c true :=
      recv_eq_recvN s c true hWF.1 hc
    show Inv (runEnc (RxCtrState.recv s c true).snd t)
    rw [heq]
    exact ih _ (wf_recvN s c true hWF hc) (inv_recvN s c hWF hc hinv)
      fun x hx => hl x (List.mem_cons_of_mem _ hx)

theorem run_dead (l : List Nat) (s : RxCtrState) (v : Nat) (hWF : WF s)
    (hv : v < 4294967296) (hl : ∀ x ∈ l, x < 4294967296)
    (hdead : Dead v s) : Dead v (runEnc s l) := by
  induction l generalizing s with
  | nil => exact hdead
  | cons c t ih =>
    have hc : c < 4294967296 := hl c (List.mem_cons_self _ _)
    have heq : RxCtrState.recv s c true = recvN s c true :=
      recv_eq_recvN s c true hWF.1 hc
    show Dead v (runEnc (RxCtrState.recv s c true).snd t)
    rw [heq]
    exact ih _ (wf_recvN s c true hWF hc) (fun x hx => hl x (List.mem_cons_of_mem _ hx))
      (dead_step s v c hWF hv hc hdead)

/-- C1 counterexample: at `max_ctr = 2^31 + 1`, `msg_ctr = 0`, unencrypted,
the signed difference is `+2147483647`, so none of the claim's guards for
cases (2)-(4) hold and its case (5) reports a duplicate with the state
unchanged — but the source takes the unencrypted-reboot branch and accepts,
resetting the state.  The claim's case (4) guard `Δ < -16 ∧ ¬encrypted` is
narrower than the source's `¬encrypted`. -/
theorem C1_counterexample :
    claimRecvC1 ⟨2147483649, 65535⟩ 0 false = (true, ⟨2147483649, 65535⟩) ∧
    RxCtrState.recv ⟨2147483649, 65535⟩ 0 false = (false, ⟨0, 65535⟩) := by
  constructor <;> decide

/-- C1 amended: the five ordered cases describe `recv` exactly once case (3)
shifts by `|Δ|` (the source's `unsigned_abs`) and case (4) is guarded only
by "unencrypted" after cases (1)-(3) have failed. -/
theorem C1_amended_correct :
    ∀ (s : RxCtrState) (msg_ctr : Nat) (is_encrypted : Bool),
      claimRecvC1A s msg_ctr is_encrypted = RxCtrState.recv s msg_ctr is_encrypted := by
  intro s msg enc
  cases enc <;> rfl

/-- C2 counterexample: counters are 32-bit, so 65535 → 0 is a large
*backward* jump, not a wrap: with `max_ctr = 65535`, `recv(0, true)` reports
duplicate (the cited test `encrypted_wraparound` asserts exactly this), and
`recv(0, false)` takes the bitmap-reset reboot path — both contradict the
claim's "accepted as a forward jump of 1, reboot path not taken". -/
theorem C2_counterexample :
    (RxCtrState.recv ⟨65535, 4660⟩ 0 true).fst = true ∧
    RxCtrState.recv ⟨65535, 4660⟩ 0 false = (false, ⟨0, 65535⟩) := by
  constructor <;> decide

/-- C2 amended: with `max_ctr = 65535` a subsequent `recv(0, e)` is a
backward jump beyond the window: duplicate with state unchanged when
encrypted, and the reboot path (accept, `max_ctr ← 0`, bitmap ← all ones)
when unencrypted. -/
theorem C2_amended_correct (b : Nat) :
    RxCtrState.recv ⟨65535, b⟩ 0 true = (true, ⟨65535, b⟩) ∧
    RxCtrState.recv ⟨65535, b⟩ 0 false = (false, ⟨0, 65535⟩) := by
  constructor <;> rfl

/-- C3 counterexample: from `new(0)`, the unencrypted calls
`recv 100; recv 300; recv 100` are all accepted — the third call repeats the
already-accepted counter 100 but the unencrypted reboot branch accepts it
again, contradicting "every later call with the same counter reports
duplicate, for any encryption flag". -/
theorem C3_counterexample :
    (RxCtrState.recv (RxCtrState.new 0) 100 false).fst = false ∧
    (RxCtrState.recv (RxCtrState.recv (RxCtrState.new 0) 100 false).snd
      300 false).fst = false ∧
    (RxCtrState.recv
      (RxCtrState.recv (RxCtrState.recv (RxCtrState.new 0) 100 false).snd
        300 false).snd 100 false).fst = false := by
  refine ⟨by decide, by decide, by decide⟩

/-- C3 amended: in a sequence consisting only of *encrypted* `recv` calls on
a window started from `new(m)`, once `recv(c, true)` returns non-duplicate,
every later `recv(c, true)` reports duplicate (the original claim fails as
soon as an unencrypted call can take the reboot branch). -/
theorem C3_amended_correct (m c : Nat) (pre mid : List Nat)
    (hm : m < 4294967296) (hc : c < 4294967296)
    (hpre : ∀ x ∈ pre, x < 4294967296) (hmid : ∀ x ∈ mid, x < 4294967296)
    (hacc : (RxCtrState.recv (runEnc (RxCtrState.new m) pre) c true).fst = false) :
    (RxCtrState.recv
      (runEnc (RxCtrState.recv (runEnc (RxCtrState.new m) pre) c true).snd mid)
      c true).fst = true := by
  have hWF1 : WF (runEnc (RxCtrState.new m) pre) :=
    run_wf pre _ ⟨hm, by show (65535:Nat) < 65536; norm_num⟩ hpre
  have hinv1 : Inv (runEnc (RxCtrState.new m) pre) :=
    run_inv pre _ ⟨hm, by show (65535:Nat) < 65536; norm_num⟩ (inv_new m) hpre
  have heq1 : RxCtrState.recv (runEnc (RxCtrState.new m) pre) c true
      = recvN (runEnc (RxCtrState.new m) pre) c true :=
    recv_eq_recvN _ c true hWF1.1 hc
  rw [heq1] at hacc ⊢
  have hdead : Dead c (recvN (runEnc (RxCtrState.new m) pre) c true).snd :=
    accept_dead _ c hWF1 hc hinv1 hacc
  have hWF2 : WF (recvN (runEnc (RxCtrState.new m) pre) c true).snd :=
    wf_recvN _ c true hWF1 hc
  have hWF3 : WF (runEnc (recvN (runEnc (RxCtrState.new m) pre) c true).snd mid) :=
    run_wf mid _ hWF2 hmid
  have hdead3 : Dead c (runEnc (recvN (runEnc (RxCtrState.new m) pre) c true).snd mid) :=
    run_dead mid _ c hWF2 hc hmid hdead
  have heq2 : RxCtrState.recv
        (runEnc (recvN (runEnc (RxCtrState.new m) pre) c true).snd mid) c true
      = recvN (runEnc (recvN (runEnc (RxCtrState.new m) pre) c true).snd mid) c true :=
    recv_eq_recvN _ c true hWF3.1 hc
  rw [heq2]
  exact dead_dup _ c hWF3 hc hdead3

/-- Witness for C3 amended: from `new(0)`, after encrypted `recv 5` the
encrypted `recv 3` is accepted; after a further encrypted `recv 7`,
repeating `recv 3` reports duplicate. -/
theorem C3_amended_witness :
    (RxCtrState.recv
      (runEnc (RxCtrState.recv (runEnc (RxCtrState.new 0) [5]) 3 true).snd [7])
      3 true).fst = true :=
  C3_amended_correct 0 3 [5] [7] (by decide) (by decide) (by decide) (by decide)
    (by decide)

/-- C9 counterexample: at `msg_ctr = 2^31 - 1`, `max_ctr = 2^31` the exact
value of `(msg_ctr as i32) - (max_ctr as i32)` is `2^32 - 1`, outside the
`i32` range — the subtraction at the top of `recv` can overflow. -/
theorem C9_counterexample :
    ¬(-2147483648 ≤ exactDiffI32 2147483647 2147483648 ∧
      exactDiffI32 2147483647 2147483648 < 2147483648) := by
  decide

/-- C9 amended: the signed difference stays within the `i32` range whenever
`msg_ctr` and `max_ctr` lie on the same side of `2^31`; in general the
release-mode (two's-complement wrapping) result is used by the embedding of
`recv`, which is total. -/
theorem C9_amended_correct (msg_ctr max_ctr : Nat)
    (hm : msg_ctr < 4294967296) (hM : max_ctr < 4294967296)
    (hside : (msg_ctr < 2147483648 ∧ max_ctr < 2147483648) ∨
      (2147483648 ≤ msg_ctr ∧ 2147483648 ≤ max_ctr)) :
    -2147483648 ≤ exactDiffI32 msg_ctr max_ctr ∧
      exactDiffI32 msg_ctr max_ctr < 2147483648 := by
  unfold exactDiffI32 i32ofU32
  split_ifs <;> omega

/-- Witness for C9 amended at `msg_ctr = 5`, `max_ctr = 7`. -/
theorem C9_amended_witness :
    -2147483648 ≤ exactDiffI32 5 7 ∧ exactDiffI32 5 7 < 2147483648 :=
  C9_amended_correct 5 7 (by decide) (by decide) (Or.inl (by decide))

theorem lmGet_nil (k : Nat) : lmGet ([] : List (Nat × α)) k = none := rfl

theorem lmGet_cons (a : Nat) (v : α) (t : List (Nat × α)) (k : Nat) :
    lmGet ((a, v) :: t) k = if a = k then some v else lmGet t k := by
  by_cases h : a = k <;> simp [lmGet, List.find?_cons, h]

theorem lmGet_eq_none_of_not_mem (l : List (Nat × α)) (k : Nat)
    (h : k ∉ l.map Prod.fst) : lmGet l k = none := by
  induction l with
  | nil => rfl
  | cons kv t ih =>
    obtain ⟨a, v⟩ := kv
    simp only [List.map_cons, List.mem_cons] at h
    rw [lmGet_cons, if_neg (by tauto)]
    exact ih (by tauto)

theorem lmGet_mem (l : List (Nat × α)) (k : Nat) (v : α)
    (h : lmGet l k = some v) : (k, v) ∈ l := by
  induction l with
  | nil => simp [lmGet] at h
  | cons kv t ih =>
    obtain ⟨a, w⟩ := kv
    rw [lmGet_cons] at h
    by_cases ha : a = k
    · rw [if_pos ha] at h
      subst ha
      obtain rfl : w = v := by injection h
      exact List.mem_cons_self _ _
    · rw [if_neg ha] at h
      exact List.mem_cons_of_mem _ (ih h)

theorem mem_lmGet (l : List (Nat × α)) (k : Nat) (v : α)
    (hnd : keysNodup l) (h : (k, v) ∈ l) : lmGet l k = some v := by
  induction l with
  | nil => simp at h
  | cons kv t ih =>
    obtain ⟨a, w⟩ := kv
    simp only [keysNodup, List.map_cons, List.nodup_cons] at hnd
    rcases List.mem_cons.mp h with h1 | h1
    · injection h1 with h1a h1b
      subst h1a
      subst h1b
      rw [lmGet_cons, if_pos rfl]
    · have hak : a ≠ k := by
        intro he
        subst he
        exact hnd.1 (List.mem_map.mpr ⟨(a, v), h1, rfl⟩)
      rw [lmGet_cons, if_neg hak]
      exact ih hnd.2 h1

theorem lmRemove_sublist (l : List (Nat × α)) (k : Nat) :
    (lmRemove l k).Sublist l :=
  List.eraseP_sublist l

theorem keysNodup_lmRemove (l : List (Nat × α)) (k : Nat)
    (hnd : keysNodup l) : keysNodup (lmRemove l k) :=
  List.Nodup.sublist (List.Sublist.map Prod.fst (lmRemove_sublist l k)) hnd

theorem lmGet_lmRemove (l : List (Nat × α)) (k i : Nat) (hnd : keysNodup l) :
    lmGet (lmRemove l k) i = if i = k then none else lmGet l i := by
  induction l with
  | nil => simp [lmRemove, lmGet]
  | cons kv t ih =>
    obtain ⟨a, w⟩ := kv
    simp only [keysNodup, List.map_cons, List.nodup_cons] at hnd
    by_cases hak : a = k
    · have : lmRemove ((a, w) :: t) k = t := by
        simp [lmRemove, List.eraseP_cons, hak]
      rw [this]
      by_cases hik : i = k
      · rw [if_pos hik]
        apply lmGet_eq_none_of_not_mem
        rw [hik, ← hak]
        exact hnd.1
      · have hai : ¬ a = i := by omega
        rw [if_neg hik, lmGet_cons, if_neg hai]
    · have : lmRemove ((a, w) :: t) k = (a, w) :: lmRemove t k := by
        simp [lmRemove, List.eraseP_cons, hak]
      rw [this, lmGet_cons, lmGet_cons, ih hnd.2]
      by_cases hia : a = i
      · subst hia
        rw [if_pos rfl, if_pos rfl, if_neg (by omega)]
      · rw [if_neg hia, if_neg hia]

theorem lmGet_foldl_remove (ids : List Nat) (l : List (Nat × α)) (i : Nat)
    (hnd : keysNodup l) :
    lmGet (ids.foldl lmRemove l) i = if i ∈ ids then none else lmGet l i := by
  induction ids generalizing l with
  | nil => simp
  | cons k t ih =>
    show lmGet (t.foldl lmRemove (lmRemove l k)) i = _
    rw [ih (lmRemove l k) (keysNodup_lmRemove l k hnd), lmGet_lmRemove l k i hnd]
    by_cases h1 : i ∈ t
    · simp [h1]
    · by_cases h2 : i = k <;> simp [h1, h2]

theorem foldl_remove_sublist (ids : List Nat) (l : List (Nat × α)) :
    (ids.foldl lmRemove l).Sublist l := by
  induction ids generalizing l with
  | nil => exact List.Sublist.refl l
  | cons k t ih =>
    exact List.Sublist.trans (ih (lmRemove l k)) (lmRemove_sublist l k)

theorem keysNodup_foldl_remove (ids : List Nat) (l : List (Nat × α))
    (hnd : keysNodup l) : keysNodup (ids.foldl lmRemove l) :=
  List.Nodup.sublist (List.Sublist.map Prod.fst (foldl_remove_sublist ids l)) hnd

theorem mem_filter_keys (l : List (Nat × α)) (p : Nat × α → Bool) (i : Nat)
    (hnd : keysNodup l) :
    i ∈ (l.filter p).map Prod.fst ↔ ∃ v, lmGet l i = some v ∧ p (i, v) = true := by
  induction l with
  | nil => simp [lmGet]
  | cons kv t ih =>
    obtain ⟨a, w⟩ := kv
    simp only [keysNodup, List.map_cons, List.nodup_cons] at hnd
    have iht := ih hnd.2
    rw [List.filter_cons, lmGet_cons]
    by_cases hp : p (a, w) = true
    · rw [if_pos hp]
      simp only [List.map_cons, List.mem_cons]
      by_cases hai : a = i
      · subst hai
        rw [if_pos rfl]
        constructor
        · intro _
          exact ⟨w, rfl, hp⟩
        · intro _
          exact Or.inl rfl
      · rw [if_neg hai]
        constructor
        · rintro (h | h)
          · exact absurd h.symm hai
          · exact iht.mp h
        · intro h
          exact Or.inr (iht.mpr h)
    · rw [if_neg hp]
      by_cases hai : a = i
      · subst hai
        rw [if_pos rfl]
        have hnone : lmGet t a = none := lmGet_eq_none_of_not_mem t a hnd.1
        constructor
        · intro h
          obtain ⟨v, hv, hpv⟩ := iht.mp h
          rw [hnone] at hv
          cases hv
        · rintro ⟨v, hv, hpv⟩
          obtain rfl : w = v := by injection hv
          exact absurd hpv hp
      · rw [if_neg hai]
        exact iht

theorem purge_fold (l : List (Nat × Exchange)) (acc : List (Nat × Unit))
    (hdisj : ∀ kv ∈ l, acc.find? (fun x => x.1 == kv.1) = none)
    (hnd : keysNodup l)
    (hlen : acc.length + (l.filter (fun kv => kv.2.is_purgeable)).length ≤ MAX_EXCHANGES) :
    l.foldl
      (fun acc kv =>
        if kv.2.is_purgeable then
          match lmInsert MAX_EXCHANGES acc kv.1 () with
          | Except.ok acc1 => acc1
          | Except.error _ => acc
        else acc)
      acc
    = acc ++ (l.filter (fun kv => kv.2.is_purgeable)).map (fun kv => (kv.1, ())) := by
  induction l generalizing acc with
  | nil => simp
  | cons kv t ih =>
    obtain ⟨a, e⟩ := kv
    simp only [keysNodup, List.map_cons, List.nodup_cons] at hnd
    have hda : acc.find? (fun x => x.1 == a) = none :=
      hdisj (a, e) (List.mem_cons_self _ _)
    have hdt : ∀ kv ∈ t, acc.find? (fun x => x.1 == kv.1) = none :=
      fun kv hkv => hdisj kv (List.mem_cons_of_mem _ hkv)
    rw [List.foldl_cons, List.filter_cons]
    by_cases hp : e.is_purgeable = true
    · have hstep :
          (if (a, e).2.is_purgeable then
            match lmInsert MAX_EXCHANGES acc (a, e).1 () with
            | Except.ok acc1 => acc1
            | Except.error _ => acc
          else acc) = acc ++ [(a, ())] := by
        have hins : lmInsert MAX_EXCHANGES acc a () = Except.ok (acc ++ [(a, ())]) := by
          unfold lmInsert
          rw [hda]
          have hroom : acc.length < MAX_EXCHANGES := by
            rw [List.filter_cons, if_pos hp] at hlen
            simp only [List.length_cons] at hlen
            omega
          simp [hroom]
        show (if e.is_purgeable = true then _ else acc) = _
        rw [if_pos hp, hins]
      rw [hstep]
      have hlen1 : (acc ++ [(a, ())]).length +
          (t.filter (fun kv => kv.2.is_purgeable)).length ≤ MAX_EXCHANGES := by
        rw [List.length_append]
        rw [List.filter_cons, if_pos hp] at hlen
        simp only [List.length_cons, List.length_nil] at hlen ⊢
        omega
      have hdisj1 : ∀ kv ∈ t, (acc ++ [(a, ())]).find? (fun x => x.1 == kv.1) = none := by
        intro kv hkv
        rw [List.find?_append, hdt kv hkv]
        have hka : (a == kv.1) = false := by
          have : a ≠ kv.1 := by
            intro he
            exact hnd.1 (he ▸ List.mem_map.mpr ⟨kv, hkv, rfl⟩)
          simpa using this
        simp [List.find?, hka]
      rw [ih (acc ++ [(a, ())]) hdisj1 hnd.2 hlen1, if_pos hp]
      simp
    · have hp' : (a, e).2.is_purgeable = false := by simpa using hp
      have hstep :
          (if (a, e).2.is_purgeable then
            match lmInsert MAX_EXCHANGES acc (a, e).1 () with
            | Except.ok acc1 => acc1
            | Except.error _ => acc
          else acc) = acc := by
        rw [if_neg (by simp [hp'])]
      rw [hstep]
      have hlen1 : acc.length + (t.filter (fun kv => kv.2.is_purgeable)).length ≤
          MAX_EXCHANGES := by
        rw [List.filter_cons, if_neg (by simp [hp'])] at hlen
        exact hlen
      rw [ih acc hdt hnd.2 hlen1, if_neg (by simp [hp'])]

/-- Pointwise description of `purge`: an id's entry survives exactly when it
was present and not purgeable. -/
theorem lmGet_purge (m : ExchangeMgr)
    (hnd : keysNodup m.exchanges) (hlen : m.exchanges.length ≤ MAX_EXCHANGES) (id : Nat) :
    lmGet (m.purge).exchanges id =
      if id ∈ (m.exchanges.filter (fun kv => kv.2.is_purgeable)).map Prod.fst then none
      else lmGet m.exchanges id := by
  have hfold := purge_fold m.exchanges [] (fun kv _ => rfl) hnd
    (by
      have := List.length_filter_le (fun kv => kv.2.is_purgeable) m.exchanges
      simp only [List.length_nil, Nat.zero_add]
      omega)
  have hconv :
      List.foldl (fun l kv => lmRemove l kv.1) m.exchanges
        ((m.exchanges.filter (fun kv => kv.2.is_purgeable)).map (fun kv => (kv.1, ()))) =
      List.foldl lmRemove m.exchanges
        ((m.exchanges.filter (fun kv => kv.2.is_purgeable)).map Prod.fst) := by
    rw [List.foldl_map, List.foldl_map]
  simp only [ExchangeMgr.purge]
  rw [hfold, List.nil_append, hconv, lmGet_foldl_remove _ _ _ hnd]

/-- C4: `purge()` removes exactly the purgeable exchanges: an id is absent
afterwards iff it was absent before or its exchange was purgeable
(`Terminate`, or `Close` with empty reliability state); every other entry
is unchanged. -/
theorem C4_purge_exact (m : ExchangeMgr)
    (hnd : keysNodup m.exchanges) (hlen : m.exchanges.length ≤ MAX_EXCHANGES) :
    (∀ id, lmGet (m.purge).exchanges id = none ↔
      (lmGet m.exchanges id = none ∨
        ∃ e, lmGet m.exchanges id = some e ∧ e.is_purgeable = true)) ∧
    (∀ id e, lmGet m.exchanges id = some e → e.is_purgeable = false →
      lmGet (m.purge).exchanges id = some e) := by
  constructor
  · intro id
    rw [lmGet_purge m hnd hlen id]
    by_cases hmem : id ∈ (m.exchanges.filter (fun kv => kv.2.is_purgeable)).map Prod.fst
    · rw [if_pos hmem]
      constructor
      · intro _
        rcases (mem_filter_keys m.exchanges _ id hnd).mp hmem with ⟨v, hv, hpv⟩
        exact Or.inr ⟨v, hv, hpv⟩
      · intro _
        rfl
    · rw [if_neg hmem]
      constructor
      · intro h
        exact Or.inl h
      · rintro (h | ⟨e, he, hpe⟩)
        · exact h
        · exact absurd ((mem_filter_keys m.exchanges _ id hnd).mpr ⟨e, he, hpe⟩) hmem
  · intro id e he hpe
    rw [lmGet_purge m hnd hlen id, if_neg]
    · exact he
    · intro hmem
      rcases (mem_filter_keys m.exchanges _ id hnd).mp hmem with ⟨v, hv, hpv⟩
      rw [he] at hv
      obtain rfl : e = v := by injection hv
      rw [hpe] at hpv
      cases hpv

/-- Witness for C4 on the `test_purge` scenario: exchange 3 (still Open) is
untouched by `purge`, while exchange 2 (closed, empty reliability state) is
removed. -/
theorem C4_purge_witness :
    lmGet ((ExchangeMgr.purge
      ⟨[(2, Exchange.close (Exchange.new 2 1 Role.Responder)),
        (3, Exchange.new 3 1 Role.Responder)], []⟩).exchanges) 3 =
      some (Exchange.new 3 1 Role.Responder) :=
  (C4_purge_exact _ (by unfold keysNodup; decide) (by decide)).2 3 _ rfl rfl

theorem keys_map_replace (l : List (Nat × α)) (k : Nat) (x : α) :
    (l.map (fun kv2 => if kv2.1 == k then (kv2.1, x) else kv2)).map Prod.fst
      = l.map Prod.fst := by
  induction l with
  | nil => rfl
  | cons kv t ih =>
    obtain ⟨a, w⟩ := kv
    simp [ih]
    exact ⟨by split <;> rfl, fun a b _ => by split <;> rfl⟩

theorem lmGet_map_replace_ne (l : List (Nat × α)) (k : Nat) (x : α) (i : Nat)
    (hne : i ≠ k) :
    lmGet (l.map (fun kv2 => if kv2.1 == k then (kv2.1, x) else kv2)) i = lmGet l i := by
  induction l with
  | nil => rfl
  | cons kv t ih =>
    obtain ⟨a, w⟩ := kv
    by_cases h : (a == k) = true
    · have ha : a = k := by simpa using h
      have hai : ¬ a = i := by omega
      rw [List.map_cons]
      have hh : (if (((a, w) : Nat × α).1 == k) = true then (((a, w) : Nat × α).1, x)
          else (a, w)) = (a, x) := by simp [h]
      rw [hh, lmGet_cons, lmGet_cons, if_neg hai, if_neg hai]
      exact ih
    · have h' : (a == k) = false := by simpa using h
      rw [List.map_cons]
      have hh : (if (((a, w) : Nat × α).1 == k) = true then (((a, w) : Nat × α).1, x)
          else (a, w)) = (a, w) := by simp [h']
      rw [hh, lmGet_cons, lmGet_cons]
      by_cases hai : a = i
      · rw [if_pos hai, if_pos hai]
      · rw [if_neg hai, if_neg hai]
        exact ih

theorem evictNotify_keys (m : ExchangeMgr) (index : Nat) (tx : Packet)
    (o : EvictIface) :
    (evictNotify m index tx o).snd.map Prod.fst = m.exchanges.map Prod.fst := by
  unfold evictNotify
  cases hfind : m.exchanges.find? (fun kv => kv.2.sess_idx == index) with
  | none => rfl
  | some kv => exact keys_map_replace m.exchanges kv.1 _

theorem evictNotify_lookup_ne (m : ExchangeMgr) (index : Nat) (tx : Packet)
    (o : EvictIface) (hnd : keysNodup m.exchanges) (id : Nat) (e : Exchange)
    (he : lmGet m.exchanges id = some e) (hse : e.sess_idx ≠ index) :
    lmGet (evictNotify m index tx o).snd id = some e := by
  unfold evictNotify
  cases hfind : m.exchanges.find? (fun kv => kv.2.sess_idx == index) with
  | none => exact he
  | some kv =>
    have hkv_mem : kv ∈ m.exchanges := List.mem_of_find?_eq_some hfind
    have hkv_sess : kv.2.sess_idx = index := by
      have := List.find?_some hfind
      simpa using this
    have hkv_get : lmGet m.exchanges kv.1 = some kv.2 := by
      obtain ⟨a, w⟩ := kv
      exact mem_lmGet m.exchanges a w hnd hkv_mem
    have hne : id ≠ kv.1 := by
      intro heq
      rw [heq, hkv_get] at he
      obtain rfl : kv.2 = e := by injection he
      exact hse hkv_sess
    exact (lmGet_map_replace_ne m.exchanges kv.1 _ id hne).trans he

theorem evictRemove_clears (l1 : List (Nat × Exchange)) (index : Nat)
    (hnd : keysNodup l1) :
    ∀ kv ∈ evictRemove l1 index, kv.2.sess_idx ≠ index := by
  intro kv hkv hsess
  have hsub : kv ∈ l1 :=
    (foldl_remove_sublist _ l1).subset hkv
  obtain ⟨a, e⟩ := kv
  have hget1 : lmGet l1 a = some e := mem_lmGet l1 a e hnd hsub
  have hmem : a ∈ (l1.filter (fun kv => kv.2.sess_idx == index)).map Prod.fst := by
    apply (mem_filter_keys l1 _ a hnd).mpr
    exact ⟨e, hget1, by simpa using hsess⟩
  have hnone : lmGet (evictRemove l1 index) a = none := by
    unfold evictRemove
    rw [lmGet_foldl_remove _ l1 a hnd, if_pos hmem]
  have hsome : lmGet (evictRemove l1 index) a = some e := by
    apply mem_lmGet _ a e _ hkv
    exact keysNodup_foldl_remove _ l1 hnd
  rw [hnone] at hsome
  cases hsome

theorem evictRemove_keeps (l1 : List (Nat × Exchange)) (index : Nat)
    (hnd : keysNodup l1) (id : Nat) (e : Exchange)
    (he : lmGet l1 id = some e) (hse : e.sess_idx ≠ index) :
    lmGet (evictRemove l1 index) id = some e := by
  unfold evictRemove
  rw [lmGet_foldl_remove _ l1 id hnd, if_neg]
  · exact he
  · intro hmem
    obtain ⟨v, hv, hpv⟩ := (mem_filter_keys l1 _ id hnd).mp hmem
    rw [he] at hv
    obtain rfl : e = v := by injection hv
    exact hse (by simpa using hpv)

/-- C5: when `evict_session(index)` returns Ok, no exchange bound to
`index` remains, the session at `index` is gone from the session table, and
every exchange bound to a different session index is still present,
unchanged. -/
theorem C5_evict_session (m : ExchangeMgr) (index : Nat) (o : EvictIface)
    (hnd : keysNodup m.exchanges)
    (hok : (m.evict_session index o).fst = Except.ok ()) :
    (∀ kv ∈ (m.evict_session index o).snd.exchanges, kv.2.sess_idx ≠ index) ∧
    index ∉ (m.evict_session index o).snd.sessions ∧
    (∀ id e, lmGet m.exchanges id = some e → e.sess_idx ≠ index →
      lmGet (m.evict_session index o).snd.exchanges id = some e) := by
  unfold ExchangeMgr.evict_session at hok ⊢
  cases hnew : o.new_tx with
  | error err =>
    rw [hnew] at hok
    have h2 : (Except.error err : Except Error Unit) = Except.ok () := hok
    cases h2
  | ok tx0 =>
    rw [hnew] at hok
    dsimp only at hok ⊢
    cases hsc : o.sc_status_report tx0 with
    | error err =>
      rw [hsc] at hok
      have h2 : (Except.error err : Except Error Unit) = Except.ok () := hok
      cases h2
    | ok tx =>
      rw [hsc] at hok
      dsimp only at hok ⊢
      cases hnotif : evictNotify m index tx o with
      | mk res l1 =>
        rw [hnotif] at hok
        have hnd1 : keysNodup l1 := by
          have hk := evictNotify_keys m index tx o
          rw [hnotif] at hk
          unfold keysNodup
          rw [hk]
          exact hnd
        cases res with
        | error err =>
          have h2 : (Except.error err : Except Error Unit) = Except.ok () := hok
          cases h2
        | ok u =>
          dsimp only at hok ⊢
          refine ⟨?_, ?_, ?_⟩
          · exact evictRemove_clears l1 index hnd1
          · intro hmem
            have := (List.mem_filter.mp hmem).2
            simp at this
          · intro id e he hse
            have h1 : lmGet l1 id = some e := by
              have h2 := evictNotify_lookup_ne m index tx o hnd id e he hse
              rw [hnotif] at h2
              exact h2
            exact evictRemove_keeps l1 index hnd1 id e h1 hse

/-- Witness for C5: evicting session index 1 from a table holding exchange
20 on session 1 and exchange 30 on session 2 removes exchange 20 and
session 1; exchange 30 survives unchanged. -/
theorem C5_evict_witness :
    lmGet ((ExchangeMgr.evict_session
      ⟨[(20, Exchange.new 20 1 Role.Responder), (30, Exchange.new 30 2 Role.Responder)],
        [1, 2]⟩ 1
      ⟨Except.ok ⟨0, false, 0⟩, fun p => Except.ok p,
        ⟨fun p => Except.ok p, fun _ => Except.ok ()⟩,
        ⟨fun mrp p => (mrp, Except.ok p)⟩⟩).snd.exchanges) 30 =
      some (Exchange.new 30 2 Role.Responder) := by
  exact (C5_evict_session
    ⟨[(20, Exchange.new 20 1 Role.Responder), (30, Exchange.new 30 2 Role.Responder)],
      [1, 2]⟩ 1
    ⟨Except.ok ⟨0, false, 0⟩, fun p => Except.ok p,
      ⟨fun p => Except.ok p, fun _ => Except.ok ()⟩,
      ⟨fun mrp p => (mrp, Except.ok p)⟩⟩
    (by unfold keysNodup; decide) (by rfl)).2.2 30
    (Exchange.new 30 2 Role.Responder) (by rfl) (by decide)

/-- C6: sending on a Terminate exchange returns Ok without any transmission
step — the header is not stamped, none of `session.pre_send`,
`mrp.pre_send`, `session.send` runs (empty trace, result independent of the
oracles), and the exchange and packet are unchanged. -/
theorem C6_send_terminate (e : Exchange) (proto_tx : Packet)
    (session : SessionIface) (mrp_if : MrpIface)
    (h : e.state = State.Terminate) :
    Exchange.send e proto_tx session mrp_if =
      ⟨Except.ok (), e, proto_tx, []⟩ := by
  unfold Exchange.send
  rw [if_pos h]

/-- Witness for C6: a terminated exchange swallows the send even when every
collaborator oracle fails. -/
theorem C6_send_witness :
    Exchange.send (Exchange.terminate (Exchange.new 1 0 Role.Initiator)) ⟨9, false, 7⟩
      ⟨fun _ => Except.error Error.OtherErr, fun _ => Except.error Error.OtherErr⟩
      ⟨fun mrp _ => (mrp, Except.error Error.OtherErr)⟩ =
      ⟨Except.ok (), Exchange.terminate (Exchange.new 1 0 Role.Initiator),
        ⟨9, false, 7⟩, []⟩ :=
  C6_send_terminate _ _ _ _ rfl

theorem pending_acks_fold (l : List (Nat × Exchange)) (out : List (Nat × Unit))
    (hlen : out.length + (l.filter (fun kv => kv.2.mrp.is_ack_ready)).length ≤
      MAX_MRP_ENTRIES) :
    (l.foldl
      (fun acc kv =>
        match acc with
        | none => none
        | some out =>
          if kv.2.mrp.is_ack_ready then
            match lmInsert MAX_MRP_ENTRIES out kv.1 () with
            | Except.ok out1 => some out1
            | Except.error _ => none
          else some out)
      (some out)).isSome = true := by
  induction l generalizing out with
  | nil => rfl
  | cons kv t ih =>
    obtain ⟨a, e⟩ := kv
    rw [List.foldl_cons]
    by_cases hp : e.mrp.is_ack_ready = true
    · rw [List.filter_cons, if_pos (by simpa using hp)] at hlen
      simp only [List.length_cons] at hlen
      cases hins : lmInsert MAX_MRP_ENTRIES out a () with
      | ok out1 =>
        have hlen1 : out1.length ≤ out.length + 1 := by
          unfold lmInsert at hins
          split_ifs at hins with h1 h2
          · obtain rfl : out.map _ = out1 := by injection hins
            rw [List.length_map]
            omega
          · obtain rfl : out ++ [(a, ())] = out1 := by injection hins
            rw [List.length_append]
            simp
        have hstep :
            (match some out with
              | none => none
              | some o =>
                if (a, e).2.mrp.is_ack_ready then
                  match lmInsert MAX_MRP_ENTRIES o (a, e).1 () with
                  | Except.ok out1 => some out1
                  | Except.error _ => none
                else some o) = some out1 := by
          show (if e.mrp.is_ack_ready then _ else _) = _
          rw [if_pos hp, hins]
        rw [hstep]
        exact ih out1 (by omega)
      | error u =>
        exfalso
        unfold lmInsert at hins
        split_ifs at hins with h1 h2
        omega
    · have hp' : e.mrp.is_ack_ready = false := by simpa using hp
      rw [List.filter_cons, if_neg (by simp [hp'])] at hlen
      have hstep :
          (match some out with
            | none => none
            | some o =>
              if (a, e).2.mrp.is_ack_ready then
                match lmInsert MAX_MRP_ENTRIES o (a, e).1 () with
                | Except.ok out1 => some out1
                | Except.error _ => none
              else some o) = some out := by
        show (if e.mrp.is_ack_ready then _ else _) = _
        rw [if_neg (by simp [hp'])]
      rw [hstep]
      exact ih out hlen

/-- C8 counterexample: with five ack-ready exchanges in the table (the table
holds up to eight) and an empty output map of capacity four, `pending_acks`
hits the `.unwrap()` on a full map and panics (modelled as `none`). -/
theorem C8_pending_acks_counterexample :
    ExchangeMgr.pending_acks
      ⟨[(1, ⟨1, 0, Role.Responder, State.Open, ⟨true, true⟩, DataOption.None⟩),
        (2, ⟨2, 0, Role.Responder, State.Open, ⟨true, true⟩, DataOption.None⟩),
        (3, ⟨3, 0, Role.Responder, State.Open, ⟨true, true⟩, DataOption.None⟩),
        (4, ⟨4, 0, Role.Responder, State.Open, ⟨true, true⟩, DataOption.None⟩),
        (5, ⟨5, 0, Role.Responder, State.Open, ⟨true, true⟩, DataOption.None⟩)], []⟩
      [] = none := by
  rfl

/-- C8 amended: `pending_acks` does not panic as long as the caller's map
has room for every ack-ready exchange (at most `MAX_MRP_ENTRIES = 4` in
total); beyond that the `.unwrap()` panics — overflow is a caller bug
(spec §4.E), not a recoverable `NoSpace`. -/
theorem C8_pending_acks_amended (m : ExchangeMgr) (out : List (Nat × Unit))
    (hlen : out.length +
      (m.exchanges.filter (fun kv => kv.2.mrp.is_ack_ready)).length ≤ MAX_MRP_ENTRIES) :
    (m.pending_acks out).isSome = true :=
  pending_acks_fold m.exchanges out hlen

/-- Witness for C8 amended: one ack-ready exchange flushes fine. -/
theorem C8_pending_acks_witness :
    (ExchangeMgr.pending_acks
      ⟨[(1, ⟨1, 0, Role.Responder, State.Open, ⟨true, true⟩, DataOption.None⟩)], []⟩
      []).isSome = true :=
  C8_pending_acks_amended
    ⟨[(1, ⟨1, 0, Role.Responder, State.Open, ⟨true, true⟩, DataOption.None⟩)], []⟩
    [] (by decide)

/-- C10: `take_data_boxed::<T>` returns `Some` exactly when the slot holds a
`Boxed` value of type `T` (leaving the slot None); a `Boxed` value of a
different type yields `None` and the slot is still cleared (the value is
dropped); `Time` or `None` yield `None` with the exchange unchanged. -/
theorem C10_take_data_boxed (e : Exchange) (ty_id : Nat) :
    (∀ t v, e.data = DataOption.Boxed t v →
      (t = ty_id →
        Exchange.take_data_boxed e ty_id = (some v, { e with data := DataOption.None })) ∧
      (t ≠ ty_id →
        Exchange.take_data_boxed e ty_id = (none, { e with data := DataOption.None }))) ∧
    ((∀ t v, e.data ≠ DataOption.Boxed t v) →
      Exchange.take_data_boxed e ty_id = (none, e)) := by
  unfold Exchange.take_data_boxed
  cases hd : e.data with
  | Boxed t0 v0 =>
    dsimp only
    refine ⟨?_, ?_⟩
    · intro t v hbv
      injection hbv with ht hv
      subst ht
      subst hv
      constructor
      · intro hty
        rw [if_pos hty]
      · intro hty
        rw [if_neg hty]
    · intro hne
      exact absurd rfl (hne t0 v0)
  | Time t0 =>
    dsimp only
    refine ⟨?_, ?_⟩
    · intro t v hbv
      cases hbv
    · intro _
      show (none, { e with data := DataOption.Time t0 }) = (none, e)
      rw [← hd]
  | None =>
    dsimp only
    refine ⟨?_, ?_⟩
    · intro t v hbv
      cases hbv
    · intro _
      show (none, { e with data := DataOption.None }) = (none, e)
      rw [← hd]

/-- Witness for C10: taking a matching `Boxed` payload moves it out and
clears the slot. -/
theorem C10_take_data_witness :
    Exchange.take_data_boxed
      ⟨1, 0, Role.Initiator, State.Open, ReliableMessage.new, DataOption.Boxed 3 42⟩ 3 =
      (some 42,
        ⟨1, 0, Role.Initiator, State.Open, ReliableMessage.new, DataOption.None⟩) :=
  ((C10_take_data_boxed
    ⟨1, 0, Role.Initiator, State.Open, ReliableMessage.new, DataOption.Boxed 3 42⟩ 3).1
    3 42 rfl).1 rfl

/-- C7 counterexample: an unknown exchange id on a packet whose peer is not
the initiator fails with `NoSpace`, not `NoExchange` (the quirk the spec's
§9 itself records) — so "fails with NoExchange in exactly two situations" is
wrong about situation (a). -/
theorem C7_counterexample :
    (ExchangeMgr.recvLookup [] 0 ⟨5, false, 0⟩).fst = Except.error Error.NoSpace ∧
    (Except.error Error.NoSpace : Except Error Exchange) ≠
      Except.error Error.NoExchange := by
  refine ⟨rfl, ?_⟩
  intro h
  injection h with h2
  cases h2

/-- C7 amended: the receive-path lookup fails with `NoExchange` exactly on a
role or session-index mismatch of a present id; an unknown id with a
non-initiator peer fails with `NoSpace`; every failure leaves the exchange
table unchanged. -/
theorem C7_recvLookup_amended (exchanges : List (Nat × Exchange)) (sess_idx : Nat)
    (pkt : Packet) :
    ((ExchangeMgr.recvLookup exchanges sess_idx pkt).fst =
        Except.error Error.NoExchange ↔
      ∃ e, lmGet exchanges pkt.exch_id = some e ∧
        (e.role ≠ get_complementary_role pkt.initiator ∨ e.sess_idx ≠ sess_idx)) ∧
    (lmGet exchanges pkt.exch_id = none → pkt.initiator = false →
      (ExchangeMgr.recvLookup exchanges sess_idx pkt).fst =
        Except.error Error.NoSpace) ∧
    (∀ err, (ExchangeMgr.recvLookup exchanges sess_idx pkt).fst = Except.error err →
      (ExchangeMgr.recvLookup exchanges sess_idx pkt).snd = exchanges) := by
  unfold ExchangeMgr.recvLookup ExchangeMgr._get
  cases hfind : exchanges.find? (fun kv => kv.1 == pkt.exch_id) with
  | some kv =>
    have hget : lmGet exchanges pkt.exch_id = some kv.2 := by
      unfold lmGet
      rw [hfind]
      rfl
    simp only [Option.isSome_some, if_true]
    rw [hfind]
    dsimp only
    by_cases hrs : kv.2.role = get_complementary_role pkt.initiator ∧
        sess_idx = kv.2.sess_idx
    · rw [if_pos hrs]
      refine ⟨?_, ?_, ?_⟩
      · constructor
        · intro h
          cases h
        · rintro ⟨e, he, hor⟩
          rw [hget] at he
          obtain rfl : kv.2 = e := by injection he
          rcases hor with h | h
          · exact absurd hrs.1 h
          · exact absurd hrs.2.symm h
      · intro hnone _
        rw [hget] at hnone
        cases hnone
      · intro err _
        rfl
    · rw [if_neg hrs]
      refine ⟨?_, ?_, ?_⟩
      · constructor
        · intro _
          refine ⟨kv.2, hget, ?_⟩
          by_cases h1 : kv.2.role = get_complementary_role pkt.initiator
          · right
            intro h2
            exact hrs ⟨h1, h2.symm⟩
          · exact Or.inl h1
        · intro _
          rfl
      · intro hnone _
        rw [hget] at hnone
        cases hnone
      · intro err _
        rfl
  | none =>
    have hget : lmGet exchanges pkt.exch_id = none := by
      unfold lmGet
      rw [hfind]
      rfl
    simp only [Option.isSome_none, Bool.false_eq_true, if_false]
    cases hcr : pkt.initiator with
    | false =>
      simp only [Bool.false_eq_true, if_false]
      refine ⟨?_, ?_, ?_⟩
      · constructor
        · intro h
          injection h with h2
          cases h2
        · rintro ⟨e, he, _⟩
          rw [hget] at he
          cases he
      · intro _ _
        trivial
      · intro err _
        trivial
    | true =>
      simp only [if_true]
      unfold lmInsert
      rw [hfind]
      simp only [Option.isSome_none, Bool.false_eq_true, if_false]
      by_cases hroom : exchanges.length < MAX_EXCHANGES
      · rw [if_pos hroom]
        dsimp only
        have hfind2 :
            (exchanges ++
              [(pkt.exch_id,
                Exchange.new pkt.exch_id sess_idx (get_complementary_role true))]).find?
              (fun kv => kv.1 == pkt.exch_id) =
            some (pkt.exch_id,
              Exchange.new pkt.exch_id sess_idx (get_complementary_role true)) := by
          rw [List.find?_append, hfind]
          simp [List.find?]
        rw [hfind2]
        dsimp only
        rw [if_pos ⟨rfl, rfl⟩]
        refine ⟨?_, ?_, ?_⟩
        · constructor
          · intro h
            cases h
          · rintro ⟨e, he, _⟩
            rw [hget] at he
            cases he
        · intro _ h2
          cases h2
        · intro err h
          cases h
      · rw [if_neg hroom]
        dsimp only
        refine ⟨?_, ?_, ?_⟩
        · constructor
          · intro h
            injection h with h2
            cases h2
          · rintro ⟨e, he, _⟩
            rw [hget] at he
            cases he
        · intro _ h2
          cases h2
        · intro err _
          rfl

/-- Witness for C7 amended: a present id whose stored role conflicts with
the packet's initiator flag is rejected with `NoExchange`. -/
theorem C7_recvLookup_witness :
    (ExchangeMgr.recvLookup [(5, Exchange.new 5 0 Role.Initiator)] 0
      ⟨5, true, 0⟩).fst = Except.error Error.NoExchange :=
  (C7_recvLookup_amended [(5, Exchange.new 5 0 Role.Initiator)] 0 ⟨5, true, 0⟩).1.mpr
    ⟨Exchange.new 5 0 Role.Initiator, rfl, Or.inl (by decide)⟩

end Matter
